import Mathlib

/-!
Verification of the message-handling and conversation-state core of a
chat-webhook backend (FastAPI + Supabase).  The Python services are shallowly
embedded as pure Lean functions: database rows become record values, database
updates become record updates, external calls (OTP delivery, OTP verification,
the language-model call, the Google action provider) become explicit
parameters, and the ordered side effects of one webhook-handling run are
collected in an event trace.  Machine strings are `List Char`; the Python
string primitives used by the services (`str.lower`, `str.strip`,
`str.split`, `str.replace`, `int(...)`, substring tests and the two regular
expressions) are reimplemented here with the same semantics on the inputs the
services handle (ASCII text; Python's Unicode-aware classes agree with the
ASCII ones there).  `0.7 * max_tokens` is modelled exactly as the rational
`7 * B / 10` via the integer comparison `10 * t > 7 * B`.
-/

namespace ProdBackend

/-! ## Python string primitives -/

/-- Lowercase an ASCII letter, as Python `str.lower` does on the ASCII range. -/
def lowerChar (c : Char) : Char :=
  if 65 ≤ c.toNat ∧ c.toNat ≤ 90 then Char.ofNat (c.toNat + 32) else c

/-- Python `str.lower` on the character list of a string. -/
def pyLower (cs : List Char) : List Char := cs.map lowerChar

/-- The ASCII whitespace characters stripped by Python `str.strip()`. -/
def pyIsSpace (c : Char) : Bool :=
  c = ' ' || c = '\t' || c = '\n' || c = '\r' || c = '\x0b' || c = '\x0c'

/-- Python `str.strip()`: drop leading and trailing whitespace. -/
def pyStripChars (cs : List Char) : List Char :=
  ((cs.dropWhile pyIsSpace).reverse.dropWhile pyIsSpace).reverse

/-- Python `str.strip()` packaged on `String`. -/
def pyStrip (s : String) : String := ⟨pyStripChars s.data⟩

/-- Python's `needle in hay` substring test. -/
def containsSub (needle hay : List Char) : Bool :=
  match hay with
  | [] => needle.isEmpty
  | _ :: t => needle.isPrefixOf hay || containsSub needle t

/-- Substring test packaged on `String`. -/
def strContains (hay needle : String) : Bool := containsSub needle.data hay.data

/-- Boolean suffix test on character lists. -/
def isSuffixOfB (a b : List Char) : Bool :=
  if a = b then true
  else match b with
    | [] => false
    | _ :: t => isSuffixOfB a t

/-- Boolean infix test on character lists. -/
def isInfixOfB (a b : List Char) : Bool :=
  a.isPrefixOf b ||
    match b with
    | [] => false
    | _ :: t => isInfixOfB a t

/-! ## Conversation transcript serialization
(`AIConversationService._conversation_to_string` /
`_parse_conversation_string`). -/

/-- One turn of the conversation, `ConversationMessage(role, content)`. -/
structure ConversationMessage where
  role : String
  content : String
deriving DecidableEq, Repr

/-- The serialized line of one turn: `f"{role}|{content}"` (braces here are
Python format fields, not Lean code). -/
def msgLine (m : ConversationMessage) : List Char :=
  m.role.data ++ '|' :: m.content.data

/-- Python `"\n".join`. -/
def joinNl : List (List Char) → List Char
  | [] => []
  | [l] => l
  | l :: l' :: t => l ++ '\n' :: joinNl (l' :: t)

/-- `_conversation_to_string`: each turn as `role|content`, joined by
newlines. -/
def conversationToString (h : List ConversationMessage) : String :=
  ⟨joinNl (h.map msgLine)⟩

/-- Python `line.split("|", 1)` when it yields two parts: split at the first
bar, `none` when no bar occurs. -/
def splitFirstBar : List Char → Option (List Char × List Char)
  | [] => none
  | c :: rest =>
    if c = '|' then some ([], rest)
    else match splitFirstBar rest with
      | some (a, b) => some (c :: a, b)
      | none => none

/-- Python `str.split("\n")`: split at every newline, keeping empty pieces. -/
def splitOnNl : List Char → List (List Char)
  | [] => [[]]
  | c :: rest =>
    if c = '\n' then [] :: splitOnNl rest
    else match splitOnNl rest with
      | h :: t => (c :: h) :: t
      | [] => [[c]]

/-- The per-line body of `_parse_conversation_string`: skip blank lines and
lines without a bar, otherwise split at the first bar. -/
def parseLine (line : List Char) : Option ConversationMessage :=
  if pyStripChars line = [] then none
  else match splitFirstBar line with
    | some (r, c) => some ⟨⟨r⟩, ⟨c⟩⟩
    | none => none

/-- `_parse_conversation_string`: strip, split on newlines, parse each line. -/
def parseConversationString (s : String) : List ConversationMessage :=
  if pyStripChars s.data = [] then []
  else (splitOnNl (pyStripChars s.data)).filterMap parseLine

/-! ## Token counting and context truncation
(`AIConversationService._truncate_context`).  The tokenizer is the tiktoken
`cl100k_base` encoding in the source; it enters the model as an arbitrary
function `tc : String → Nat`, and `max_tokens * 0.7` is compared exactly as
the rational `7 * B / 10`. -/

/-- `sum(self._count_tokens(msg.content) for msg in conversation_history)`. -/
def totalTokens (tc : String → Nat) (h : List ConversationMessage) : Nat :=
  (h.map fun m => tc m.content).sum

/-- The while-loop of `_truncate_context`: while the running total exceeds
`0.7 * B`, stop if at most 2 messages remain, else pop the oldest message and
subtract its token count. -/
def truncateGo (tc : String → Nat) (B : Nat) :
    Nat → List ConversationMessage → List ConversationMessage
  | total, msgs =>
    if 10 * total ≤ 7 * B then msgs
    else if msgs.length ≤ 2 then msgs
    else
      match msgs with
      | [] => []
      | m :: rest => truncateGo tc B (total - tc m.content) rest

/-- `_truncate_context`: compute the total token count, then run the loop. -/
def truncateContext (tc : String → Nat) (B : Nat)
    (h : List ConversationMessage) : List ConversationMessage :=
  truncateGo tc B (totalTokens tc h) h

/-! ## Email and OTP extraction
(`MessageProcessor._extract_email_from_text` / `_extract_otp_from_text`).
The email pattern is `\b[A-Za-z0-9._%+-]+@[A-Za-z0-9.-]+\.[A-Z|a-z]{2,}\b`
(note the literal bar inside the last class) and the OTP pattern is
`\b\d{6}\b`; both are implemented below with Python's leftmost-match,
greedy-with-backtracking semantics over ASCII character classes. -/

def isAsciiUpper (c : Char) : Bool := 'A' ≤ c && c ≤ 'Z'

def isAsciiLower (c : Char) : Bool := 'a' ≤ c && c ≤ 'z'

def isAsciiDigit (c : Char) : Bool := '0' ≤ c && c ≤ '9'

def isAsciiAlnum (c : Char) : Bool := isAsciiUpper c || isAsciiLower c || isAsciiDigit c

/-- The regex word class `\w` used by `\b`. -/
def isWordChar (c : Char) : Bool := isAsciiAlnum c || c = '_'

/-- The local-part class `[A-Za-z0-9._%+-]`. -/
def isLocalChar (c : Char) : Bool :=
  isAsciiAlnum c || c = '.' || c = '_' || c = '%' || c = '+' || c = '-'

/-- The domain class `[A-Za-z0-9.-]`. -/
def isDomainChar (c : Char) : Bool := isAsciiAlnum c || c = '.' || c = '-'

/-- The top-level-domain class `[A-Z|a-z]` of the source pattern, bar
included. -/
def isTldChar (c : Char) : Bool := isAsciiUpper c || isAsciiLower c || c = '|'

def isWordOpt : Option Char → Bool
  | none => false
  | some c => isWordChar c

/-- A `\b` word boundary between two adjacent positions (out of range counts
as non-word). -/
def boundary (prev cur : Option Char) : Bool := isWordOpt prev != isWordOpt cur

/-- Backtracking for `[A-Z|a-z]{2,}\b`: try the greedy length first, then
shorter ones down to 2, accepting when the closing word boundary holds.
`tl` is the text after the dot. -/
def tryTld (tl : List Char) : Nat → Option Nat
  | 0 => none
  | 1 => none
  | t + 2 =>
    if boundary (tl.get? (t + 1)) (tl.get? (t + 2)) then some (t + 2)
    else tryTld tl (t + 1)

/-- Backtracking for `[A-Za-z0-9.-]+\.` followed by the TLD: try the greedy
domain length first, then shorter ones down to 1; a candidate length `k`
needs a literal dot right after it, then a TLD match. -/
def tryDomain (rest' : List Char) : Nat → Option (Nat × Nat)
  | 0 => none
  | k + 1 =>
    if rest'.get? (k + 1) = some '.' then
      match tryTld (rest'.drop (k + 2))
          (((rest'.drop (k + 2)).takeWhile isTldChar).length) with
      | some t => some (k + 1, t)
      | none => tryDomain rest' k
    else tryDomain rest' k

/-- Attempt the whole email pattern at the current position (`prev` is the
character before it).  The local part is deterministic: `@` is not a
local-part character, so only the greedy take can be followed by `@`. -/
def emailMatchAt (prev : Option Char) (cs : List Char) : Option (List Char) :=
  if boundary prev cs.head? = false then none
  else
    if (cs.takeWhile isLocalChar).isEmpty then none
    else
      match cs.drop (cs.takeWhile isLocalChar).length with
      | '@' :: rest' =>
        match tryDomain rest' ((rest'.takeWhile isDomainChar).length) with
        | some (k, t) =>
          some ((cs.takeWhile isLocalChar) ++ '@' :: (rest'.take k) ++
            '.' :: ((rest'.drop (k + 1)).take t))
        | none => none
      | _ => none

/-- Scan start positions left to right, as `re.findall` does, returning the
first (leftmost) match. -/
def findEmailAux : Option Char → List Char → Option (List Char)
  | _, [] => none
  | prev, c :: rest =>
    match emailMatchAt prev (c :: rest) with
    | some m => some m
    | none => findEmailAux (some c) rest

/-- The first syntactic email match of the message text (`re.findall(...)`
then `matches[0]`). -/
def findFirstEmail (s : String) : Option String :=
  (findEmailAux none s.data).map fun cs => ⟨cs⟩

/-- The action-intent keyword list of `_extract_email_from_text` in the
source (the spec names only draft/send/schedule/calendar/meeting). -/
def aiFunctionKeywords : List String :=
  ["draft", "send", "email", "compose", "write", "create", "schedule",
   "calendar", "meeting"]

def containsAiKeyword (text : String) : Bool :=
  aiFunctionKeywords.any fun k => containsSub k.data (pyLower text.data)

/-- `_extract_email_from_text`: refuse when any action-intent keyword occurs
in the lowercased message, else return the first regex match. -/
def extractEmailFromText (text : String) : Option String :=
  if containsAiKeyword text then none else findFirstEmail text

/-- Attempt `\b\d{6}\b` at the current position. -/
def otpMatchAt (prev : Option Char) (cs : List Char) : Option (List Char) :=
  if boundary prev cs.head? && (cs.take 6).length == 6 &&
      (cs.take 6).all isAsciiDigit && boundary (cs.get? 5) (cs.get? 6) then
    some (cs.take 6)
  else none

def findOtpAux : Option Char → List Char → Option (List Char)
  | _, [] => none
  | prev, c :: rest =>
    match otpMatchAt prev (c :: rest) with
    | some m => some m
    | none => findOtpAux (some c) rest

/-- `_extract_otp_from_text`: the first `\b\d{6}\b` match. -/
def extractOtpFromText (text : String) : Option String :=
  (findOtpAux none text.data).map fun cs => ⟨cs⟩

/-- The shape every returned email match has: a nonempty local part, `@`, a
nonempty domain part, a dot, and a TLD of at least 2 characters, each over
its character class. -/
def EmailShape (cs : List Char) : Prop :=
  ∃ loc dom tld, cs = loc ++ '@' :: dom ++ '.' :: tld ∧
    loc ≠ [] ∧ loc.all isLocalChar = true ∧
    dom ≠ [] ∧ dom.all isDomainChar = true ∧
    2 ≤ tld.length ∧ tld.all isTldChar = true

/-! ## Function-call block detection and stripping
(`AIConversationService._parse_and_execute_function` /
`_strip_function_calls`).  Both use the pattern
`` ```json\s*\{.*?\}\s*``` `` with DOTALL; `re.search`/`re.sub` scan start
positions left to right and the lazy body stops at the first closing brace
followed by optional whitespace and the closing fence. -/

/-- After a closing brace: skip `\s*`, require the closing fence, and return
the remainder after it. -/
def closeAfterBrace (cs : List Char) : Option (List Char) :=
  if ("```".data).isPrefixOf (cs.dropWhile pyIsSpace) then
    some ((cs.dropWhile pyIsSpace).drop 3)
  else none

/-- The lazy `.*?\}` scan: find the first closing brace whose tail completes
the block, returning the remainder after the whole block. -/
def scanBody : List Char → Option (List Char)
  | [] => none
  | c :: rest =>
    if c = '}' then
      match closeAfterBrace rest with
      | some rem => some rem
      | none => scanBody rest
    else scanBody rest

/-- Attempt the whole fenced-JSON pattern at this position, returning the
remainder after the matched block. -/
def jsonBlockAt (cs : List Char) : Option (List Char) :=
  if ("```json".data).isPrefixOf cs then
    match (cs.drop 7).dropWhile pyIsSpace with
    | '{' :: body => scanBody body
    | _ => none
  else none

theorem closeAfterBrace_length {cs rem : List Char}
    (h : closeAfterBrace cs = some rem) : rem.length ≤ cs.length := by
  unfold closeAfterBrace at h
  split at h
  · obtain rfl := Option.some.inj h
    have h1 : (cs.dropWhile pyIsSpace).length ≤ cs.length :=
      (List.dropWhile_suffix pyIsSpace).length_le
    have h2 := List.length_drop 3 (cs.dropWhile pyIsSpace)
    omega
  · exact Option.noConfusion h

theorem scanBody_length : ∀ {cs rem : List Char}, scanBody cs = some rem →
    rem.length ≤ cs.length
  | [], rem, h => by simp [scanBody] at h
  | c :: rest, rem, h => by
    rw [scanBody] at h
    split at h
    · split at h
      · rename_i rem' hclose
        obtain rfl := Option.some.inj h
        have := closeAfterBrace_length hclose
        simp only [List.length_cons]
        omega
      · have := scanBody_length h
        simp only [List.length_cons]
        omega
    · have := scanBody_length h
      simp only [List.length_cons]
      omega

theorem jsonBlockAt_length {cs rem : List Char}
    (h : jsonBlockAt cs = some rem) : rem.length < cs.length := by
  unfold jsonBlockAt at h
  split at h
  · rename_i hpre
    have hcs : 7 ≤ cs.length := by
      obtain ⟨suf, hsuf⟩ := List.isPrefixOf_iff_prefix.mp hpre
      have := congrArg List.length hsuf
      simp at this
      omega
    split at h
    case _ body hbody =>
      have hb := scanBody_length h
      have hdw : ('{' :: body).length ≤ (cs.drop 7).length := by
        rw [← hbody]
        exact (List.dropWhile_suffix pyIsSpace).length_le
      have hd7 := List.length_drop 7 cs
      simp only [List.length_cons] at hdw
      omega
    case _ => exact Option.noConfusion h
  · exact Option.noConfusion h

/-- The scan of `re.sub(pattern, '', response)` with explicit fuel; each
step consumes at least one character, so `fuel = cs.length` never runs
out (`jsonBlockAt_length`). -/
def removeJsonBlocksGo : Nat → List Char → List Char
  | 0, cs => cs
  | _, [] => []
  | fuel + 1, c :: rest =>
    match jsonBlockAt (c :: rest) with
    | some rem => removeJsonBlocksGo fuel rem
    | none => c :: removeJsonBlocksGo fuel rest

/-- `re.sub(pattern, '', response)`: remove every non-overlapping match,
scanning left to right. -/
def removeJsonBlocks (cs : List Char) : List Char :=
  removeJsonBlocksGo cs.length cs

/-- `re.search(pattern, response)` succeeds somewhere in the text. -/
def findJsonBlock : List Char → Bool
  | [] => false
  | c :: rest => (jsonBlockAt (c :: rest)).isSome || findJsonBlock rest

/-- Replace each maximal run of characters satisfying `p` by one space
(`re.sub(r'\n+', ' ', ...)` and `re.sub(r'\s+', ' ', ...)`). -/
def collapseRunsGo (p : Char → Bool) : Bool → List Char → List Char
  | _, [] => []
  | inRun, c :: rest =>
    if p c then
      if inRun then collapseRunsGo p true rest
      else ' ' :: collapseRunsGo p true rest
    else c :: collapseRunsGo p false rest

def collapseRuns (p : Char → Bool) (cs : List Char) : List Char :=
  collapseRunsGo p false cs

/-- `_strip_function_calls`: remove fenced JSON blocks, collapse newline
runs, collapse whitespace runs, strip. -/
def stripFunctionCalls (response : String) : String :=
  ⟨pyStripChars (collapseRuns pyIsSpace
    (collapseRuns (fun c => c = '\n') (removeJsonBlocks response.data)))⟩

/-! ## The conversation operation (`handle_ai_conversation`) -/

/-- The outcome of the Anthropic call inside `_generate_ai_response`: a
response text, or an exception. -/
inductive ModelOutcome
  | ok (text : String)
  | exn
deriving DecidableEq, Repr

/-- The fallback reply built by the `except` clause of
`_generate_ai_response`. -/
def fallbackModelReply : String :=
  "I'm having trouble generating a response right now. Please try again."

/-- `_generate_ai_response`: on success one stripped response string, on any
exception the fallback apology (the exception does not escape). -/
def generateAiResponse (model : ModelOutcome) : List String :=
  match model with
  | .ok text => [pyStrip text]
  | .exn => [fallbackModelReply]

/-- One observable event of a conversation run: a write of the stored
`conversation_history` column, or the language-model call. -/
inductive ConvEvent
  | persist (s : String)
  | modelCall
deriving DecidableEq, Repr

structure ConvResult where
  replies : List String
  store : String
  trace : List ConvEvent
deriving DecidableEq, Repr

/-- The in-memory history after step 2: stored history re-read and the user
turn appended (`_archive_conversation_message` is a `pass` placeholder and
writes nothing durable). -/
def convH1 (store userMessage : String) : List ConversationMessage :=
  parseConversationString store ++ [⟨"user", userMessage⟩]

/-- The stored transcript after the truncation step: rewritten only when the
token total exceeds the budget. -/
def convStore1 (tc : String → Nat) (B : Nat) (store userMessage : String) :
    String :=
  if totalTokens tc (convH1 store userMessage) > B then
    conversationToString (truncateContext tc B (convH1 store userMessage))
  else store

/-- `ai_responses[0] if ai_responses else ""`. -/
def convFull0 (model : ModelOutcome) : String :=
  (generateAiResponse model).headD ""

/-- `_parse_and_execute_function`: a result only when a fenced JSON block is
present; `execOutcome` abstracts the JSON decode and the Google dispatch. -/
def convFuncResult (model : ModelOutcome) (execOutcome : Option String) :
    Option String :=
  if findJsonBlock (convFull0 model).data then execOutcome else none

def convClean (model : ModelOutcome) : String :=
  stripFunctionCalls (convFull0 model)

/-- The reply list: cleaned text when nonempty, then the function result. -/
def convReplies (model : ModelOutcome) (execOutcome : Option String) :
    List String :=
  match convFuncResult model execOutcome with
  | some fr =>
    (if pyStrip (convClean model) = "" then [] else [convClean model]) ++ [fr]
  | none => if pyStrip (convClean model) = "" then [] else [convClean model]

/-- The assistant turn as stored: the original (pre-strip) response, with
the function result appended when one ran. -/
def convFull1 (model : ModelOutcome) (execOutcome : Option String) : String :=
  match convFuncResult model execOutcome with
  | some fr => convFull0 model ++ " " ++ fr
  | none => convFull0 model

/-- `_store_conversation_messages`: re-read the stored transcript and append
the user and assistant turns. -/
def convFinalStore (tc : String → Nat) (B : Nat) (model : ModelOutcome)
    (execOutcome : Option String) (store userMessage : String) : String :=
  conversationToString (parseConversationString
    (convStore1 tc B store userMessage) ++
    [⟨"user", userMessage⟩, ⟨"assistant", convFull1 model execOutcome⟩])

/-- `handle_ai_conversation`, as a function of the stored transcript string:
read the history, append the user turn, truncate and persist when over
budget, call the model, detect and dispatch a function-call block, strip the
block from the user-visible reply, and store the user and assistant turns. -/
def handleAiConversation (tc : String → Nat) (B : Nat) (model : ModelOutcome)
    (execOutcome : Option String) (store : String) (userMessage : String) :
    ConvResult :=
  ⟨convReplies model execOutcome,
   convFinalStore tc B model execOutcome store userMessage,
   (if totalTokens tc (convH1 store userMessage) > B then
      [ConvEvent.persist (convStore1 tc B store userMessage)] else []) ++
   [ConvEvent.modelCall,
    ConvEvent.persist (convFinalStore tc B model execOutcome store userMessage)]⟩

def notModelCall : ConvEvent → Bool
  | .modelCall => false
  | _ => true

/-- Whether, before the first model call of the trace, some persisted
transcript string ends in the user's serialized turn `user|<message>`. -/
def userTurnPersistedBeforeModel (userMessage : String)
    (tr : List ConvEvent) : Bool :=
  (tr.takeWhile notModelCall).any fun e =>
    match e with
    | .persist s => isSuffixOfB ("user|" ++ userMessage).data s.data
    | .modelCall => false

/-! ## The user profile row and the message router (`MessageProcessor`,
`IntegrationService`, `app.insert_webhook_event`).  A `Profile` is the
`user_profiles` row the services read and update; conditional updates become
record updates, and side effects are collected as `Effect`s. -/

structure Profile where
  id : String
  phoneNumber : String
  email : Option String
  emailVerified : Bool
  onboardingCompleted : Bool
  onboardingState : String
  google : Bool
  canvas : Bool
  conversationHistory : String
deriving DecidableEq, Repr

inductive Effect
  | otpSent (email : String)
  | userCreated (phone : String)
  | modelInvoked
deriving DecidableEq, Repr

/-- The external collaborators of one webhook-handling run: the tokenizer and
budget of the conversation service, the model call's outcome, the
function-dispatch outcome, and the auth provider's OTP send/verify
results. -/
structure RouterEnv where
  tc : String → Nat
  maxTokens : Nat
  model : ModelOutcome
  execOutcome : Option String
  otpSendOk : Bool
  otpVerifyOk : String → String → Bool

def dashboardUrl (p : Profile) : String := "https://www.tryamygdala.tech/" ++ p.id

def dashboardKeywords : List String :=
  ["dashboard", "integrations", "dashboard link", "integrations link",
   "dashabord"]

def containsDashboardKeyword (text : String) : Bool :=
  dashboardKeywords.any fun k => containsSub k.data (pyLower text.data)

/-- `MessageProcessor._handle_ai_conversation`: fixed dashboard replies when
a dashboard keyword occurs, otherwise the conversation service runs and its
new transcript is stored. -/
def handleAiConversationRoute (env : RouterEnv) (p : Profile) (text : String) :
    Profile × List String × List Effect :=
  if containsDashboardKeyword text then
    (p, ["here's your integrations dashboard:", dashboardUrl p,
         "you can manage all your connected services there"], [])
  else
    let r := handleAiConversation env.tc env.maxTokens env.model env.execOutcome
      p.conversationHistory text
    ({ p with conversationHistory := r.store }, r.replies, [Effect.modelInvoked])

/-- `_mark_email_verified`: conditional update — only when not yet verified,
set the flag and move to `awaiting_integrations` atomically; when already
verified, a no-op. -/
def markEmailVerified (p : Profile) : Profile :=
  if p.emailVerified then p
  else { p with emailVerified := true, onboardingState := "awaiting_integrations" }

/-- `OnboardingService._complete_onboarding`. -/
def completeOnboarding (p : Profile) : Profile :=
  { p with
    onboardingCompleted := true
    onboardingState := "completed"
    emailVerified := true }

/-- `IntegrationService._complete_onboarding_with_integrations`. -/
def completeOnboardingWithIntegrations (p : Profile) : Profile :=
  { p with onboardingCompleted := true, onboardingState := "completed" }

/-- `IntegrationService.check_and_complete_onboarding`. -/
def checkAndCompleteOnboarding (p : Profile) : Profile × Bool :=
  if p.onboardingCompleted then (p, true)
  else if p.emailVerified = false then (p, false)
  else if p.google && p.canvas then (completeOnboardingWithIntegrations p, true)
  else (p, false)

def restartReply : String :=
  "🔄 Verification process restarted!\n\nPlease provide your email address to begin verification.\n\n💡 Type 'restart' at any time to restart the process again."

/-- `_restart_verification_process`: state back to `awaiting_email`, stored
email cleared. -/
def restartVerificationProcess (p : Profile) : Profile × String :=
  ({ p with onboardingState := "awaiting_email", email := none }, restartReply)

def otpSendFailReply : String :=
  "❌ Sorry, I couldn't send the verification email. Please try again later."

/-- `_handle_email_provided_existing`: store the email, move to
`awaiting_email_otp`, then attempt the OTP send. -/
def handleEmailProvidedExisting (env : RouterEnv) (p : Profile) (em : String) :
    Profile × String × List Effect :=
  let p' := { p with email := some em, onboardingState := "awaiting_email_otp" }
  if env.otpSendOk then
    (p', "📧 Perfect! I've sent a verification code to " ++ em ++
      ".\n\nPlease check your email and reply with the 6-digit code you received.",
      [Effect.otpSent em])
  else
    (p', otpSendFailReply, [Effect.otpSent em])

/-- `_handle_otp_verification_existing`: verify the code against the stored
email; on success `_mark_email_verified`, otherwise no state change. -/
def handleOtpVerificationExisting (env : RouterEnv) (p : Profile)
    (code : String) : Profile × String × List Effect :=
  match p.email with
  | none => (p, "❌ No email found for verification. Please start over.", [])
  | some em =>
    if em = "" then
      (p, "❌ No email found for verification. Please start over.", [])
    else if env.otpVerifyOk em code then
      (markEmailVerified p,
        "✅ Email verified successfully! Your account is now active.\n\n🔗 Access your integrations dashboard: " ++
          dashboardUrl p ++
          "\n\nComplete your setup there to start using the service.", [])
    else
      (p, "❌ Invalid verification code. Please check your email and try again.\n\nMake sure you're entering the 6-digit code exactly as received.", [])

/-- The state dispatch at the bottom of `_handle_existing_user_workflow`. -/
def stateDispatchExisting (env : RouterEnv) (p : Profile)
    (messageText : String) : Profile × String × List Effect :=
  if p.onboardingState = "not_started" then
    match extractEmailFromText messageText with
    | some em => handleEmailProvidedExisting env p em
    | none =>
      ({ p with onboardingState := "awaiting_email" },
        "👋 Welcome back! To get started, I need to verify your email address.\n\nPlease reply with your email address.\n\n💡 Type 'restart' at any time to restart the verification process.",
        [])
  else if p.onboardingState = "awaiting_email" then
    match extractEmailFromText messageText with
    | some em => handleEmailProvidedExisting env p em
    | none =>
      (p, "❌ I couldn't find a valid email address in your message.\n\nPlease provide your email address (e.g., your.email@example.com)\n\n💡 Type 'restart' to start over.",
        [])
  else if p.onboardingState = "awaiting_email_otp" then
    match extractOtpFromText messageText with
    | some code => handleOtpVerificationExisting env p code
    | none =>
      match extractEmailFromText messageText with
      | some em => handleEmailProvidedExisting env p em
      | none =>
        (p, "Please enter the 6-digit verification code from your email.\n\nExample: 123456\n\n💡 Type 'restart' to restart the verification process with a new email.",
          [])
  else
    ((restartVerificationProcess p).1, (restartVerificationProcess p).2, [])

/-- `_handle_existing_user_workflow`: restart command first; then an email
anywhere in the message; then the resend branch for a stored non-temp email
not yet awaiting its code; then the per-state dispatch. -/
def handleExistingUserWorkflow (env : RouterEnv) (p : Profile)
    (text : String) : Profile × String × List Effect :=
  if pyLower (pyStrip text).data = "restart".data then
    ((restartVerificationProcess p).1, (restartVerificationProcess p).2, [])
  else
    match extractEmailFromText (pyStrip text) with
    | some em => handleEmailProvidedExisting env p em
    | none =>
      match p.email with
      | none => stateDispatchExisting env p (pyStrip text)
      | some em =>
        if em ≠ "" ∧ p.onboardingState ≠ "awaiting_email_otp" then
          if ("temp_".data).isPrefixOf em.data then
            stateDispatchExisting env p (pyStrip text)
          else if env.otpSendOk then
            ({ p with onboardingState := "awaiting_email_otp" },
              "📧 I've sent a verification code to " ++ em ++
              ".\n\nPlease check your email and reply with the 6-digit code you received.\n\n💡 Type 'restart' at any time to restart the verification process with a new email.",
              [Effect.otpSent em])
          else
            ({ p with onboardingState := "awaiting_email_otp" },
              otpSendFailReply, [Effect.otpSent em])
        else stateDispatchExisting env p (pyStrip text)

/-- The temporary address `f"temp_{digits}@temp.example.com"` built for a
new user whose first message has no email. -/
def tempEmailFor (phone : String) : String :=
  "temp_" ++ ⟨phone.data.filter (fun c => !(c = '+' || c = '-'))⟩ ++
    "@temp.example.com"

/-- The `user_profiles` row inserted by `create_authenticated_user`. -/
def newProfileFor (phone email : String) : Profile :=
  { id := phone
    phoneNumber := phone
    email := some email
    emailVerified := false
    onboardingCompleted := false
    onboardingState := "not_started"
    google := false
    canvas := false
    conversationHistory := "" }

/-- `_handle_new_user_workflow`. -/
def handleNewUserWorkflow (env : RouterEnv) (phone : String) (text : String) :
    Option Profile × String × List Effect :=
  if pyLower (pyStrip text).data = "restart".data then
    (none,
      "🔄 Starting fresh verification process!\n\nPlease provide your email address to begin verification.\n\n💡 Type 'restart' at any time to restart the process.",
      [])
  else
    match extractEmailFromText (pyStrip text) with
    | some em =>
      if env.otpSendOk then
        (some (newProfileFor phone em),
          "📧 Perfect! I've sent a verification code to " ++ em ++
          ".\n\nPlease check your email and reply with the 6-digit code you received.\n\n💡 Type 'restart' at any time to restart the verification process with a new email.",
          [Effect.userCreated phone, Effect.otpSent em])
      else
        (some (newProfileFor phone em), otpSendFailReply,
          [Effect.userCreated phone, Effect.otpSent em])
    | none =>
      (some (newProfileFor phone (tempEmailFor phone)),
        "👋 Welcome! To get started, I need to verify your email address.\n\nPlease reply with your email address.\n\n💡 Type 'restart' at any time to restart the verification process.",
        [])

/-- One inbound webhook message after JSON parsing. -/
structure InboundMessage where
  text : String
  phone : String
  isFromMe : Bool
  eventType : String
deriving DecidableEq, Repr

/-- `process_webhook_message`: skip self messages, non-message events and
missing phone numbers; route fully verified users to the conversation
service, email-verified-but-incomplete users through the integration check,
all other existing users through the onboarding workflow, and unknown phone
numbers through the new-user workflow. -/
def processWebhookMessage (env : RouterEnv) (store : Option Profile)
    (msg : InboundMessage) : Option Profile × List String × List Effect :=
  if msg.isFromMe then (store, [], [])
  else if msg.eventType ≠ "new-message" then (store, [], [])
  else if msg.phone = "" then (store, [], [])
  else
    match store with
    | some p =>
      if p.emailVerified && p.onboardingCompleted then
        (some (handleAiConversationRoute env p msg.text).1,
          (handleAiConversationRoute env p msg.text).2.1,
          (handleAiConversationRoute env p msg.text).2.2)
      else if p.emailVerified && !p.onboardingCompleted then
        if (checkAndCompleteOnboarding p).2 then
          (some (handleAiConversationRoute env (checkAndCompleteOnboarding p).1
              msg.text).1,
            (handleAiConversationRoute env (checkAndCompleteOnboarding p).1
              msg.text).2.1,
            (handleAiConversationRoute env (checkAndCompleteOnboarding p).1
              msg.text).2.2)
        else
          (some (checkAndCompleteOnboarding p).1,
            ["🔗 Complete your setup to start using the service:\n" ++
              dashboardUrl (checkAndCompleteOnboarding p).1 ++
              "\n\nOnce you've set up your integrations, you'll be able to chat with me!"],
            [])
      else
        (some (handleExistingUserWorkflow env p msg.text).1,
          [(handleExistingUserWorkflow env p msg.text).2.1],
          (handleExistingUserWorkflow env p msg.text).2.2)
    | none =>
      ((handleNewUserWorkflow env msg.phone msg.text).1,
        [(handleNewUserWorkflow env msg.phone msg.text).2.1],
        (handleNewUserWorkflow env msg.phone msg.text).2.2)

/-- `app.insert_webhook_event`: an upsert keyed on the content-hash event id;
it succeeds, and reports `True`, whether or not the id was already stored
(its docstring promises `False` for a duplicate). -/
def insertWebhookEvent (events : List String) (eventId : String) :
    List String × Bool :=
  (if events.contains eventId then events else eventId :: events, true)

def countOtpSends (es : List Effect) : Nat :=
  es.countP fun e =>
    match e with
    | .otpSent _ => true
    | _ => false

/-- The §3 invariant: never `email_verified = true` with state still
`awaiting_email`. -/
abbrev StateInvariant (p : Profile) : Prop :=
  ¬(p.emailVerified = true ∧ p.onboardingState = "awaiting_email")

/-! ### Concrete fixtures used by counterexamples and witnesses -/

/-- A concrete environment: `String.length` as tokenizer, budget 1000, a
model that answers `"hello"`, no function dispatched, OTP send succeeding
and OTP verification accepting. -/
def testEnv : RouterEnv :=
  { tc := String.length
    maxTokens := 1000
    model := .ok "hello"
    execOutcome := none
    otpSendOk := true
    otpVerifyOk := fun _ _ => true }

/-- A fully verified and onboarded user. -/
def verifiedUser : Profile :=
  { id := "u1"
    phoneNumber := "+15551234567"
    email := some "a@b.co"
    emailVerified := true
    onboardingCompleted := true
    onboardingState := "completed"
    google := true
    canvas := true
    conversationHistory := "" }

/-- A user mid-onboarding, waiting for their email code. -/
def otpUser : Profile :=
  { id := "u2"
    phoneNumber := "+15550000000"
    email := some "x@y.zz"
    emailVerified := false
    onboardingCompleted := false
    onboardingState := "awaiting_email_otp"
    google := false
    canvas := false
    conversationHistory := "" }

/-! ## Natural-language datetime resolution (`_parse_natural_datetime`),
used by the `CREATE_CALENDAR_EVENT` dispatch.  A Python `datetime` is
modelled at minute granularity (`.replace` zeroes seconds and microseconds);
`int(...)` raises on non-numeric text, `.replace(old, "")` removes every
occurrence, and `datetime.replace(hour=h, minute=m)` raises outside
`0 ≤ h < 24`, `0 ≤ m < 60` — each failure lands in the fallback. -/

structure PyDateTime where
  day : Int
  hour : Nat
  minute : Nat
deriving DecidableEq, Repr

/-- `t + timedelta(minutes=m)`. -/
def addMinutes (d : PyDateTime) (m : Nat) : PyDateTime :=
  ⟨d.day + ((d.hour * 60 + d.minute + m) / 1440 : Nat),
   (d.hour * 60 + d.minute + m) % 1440 / 60,
   (d.hour * 60 + d.minute + m) % 60⟩

/-- `base.replace(hour=h, minute=m, second=0, microsecond=0)`: `ValueError`
outside the valid ranges. -/
def pyReplaceTime (d : PyDateTime) (h m : Int) : Option PyDateTime :=
  if 0 ≤ h ∧ h < 24 ∧ 0 ≤ m ∧ m < 60 then some ⟨d.day, h.toNat, m.toNat⟩
  else none

def digitsVal (cs : List Char) : Nat :=
  cs.foldl (fun acc c => acc * 10 + (c.toNat - 48)) 0

/-- Python `int(s)`: optional surrounding whitespace, optional sign, at
least one digit; anything else raises `ValueError`. -/
def pyInt (s : String) : Option Int :=
  match pyStripChars s.data with
  | '-' :: ds =>
    if ds ≠ [] ∧ ds.all isAsciiDigit then some (-(digitsVal ds : Int)) else none
  | '+' :: ds =>
    if ds ≠ [] ∧ ds.all isAsciiDigit then some (digitsVal ds) else none
  | ds =>
    if ds ≠ [] ∧ ds.all isAsciiDigit then some (digitsVal ds) else none

/-- Python `str.split(sep)` for a one-character separator. -/
def splitOnChar (sep : Char) : List Char → List (List Char)
  | [] => [[]]
  | c :: rest =>
    if c = sep then [] :: splitOnChar sep rest
    else match splitOnChar sep rest with
      | h :: t => (c :: h) :: t
      | [] => [[c]]

/-- The scan of `s.replace(old, "")` with explicit fuel; each step consumes
at least one character (for nonempty `old`), so `fuel = cs.length` never
runs out. -/
def removeAllGo (old : List Char) : Nat → List Char → List Char
  | 0, cs => cs
  | _, [] => []
  | fuel + 1, c :: rest =>
    if old.isPrefixOf (c :: rest) ∧ old ≠ [] then
      removeAllGo old fuel ((c :: rest).drop old.length)
    else c :: removeAllGo old fuel rest

/-- Python `s.replace(old, "")` for nonempty `old`: remove every
(non-overlapping, left-to-right) occurrence. -/
def removeAll (old : List Char) (cs : List Char) : List Char :=
  removeAllGo old cs.length cs

/-- The `H[:MM](am|pm)` / 24-hour branch ladder of
`_parse_natural_datetime`, applied to the remainder after the date anchor
was removed. -/
def parseTimePart (base : PyDateTime) (timePart : List Char) :
    Option PyDateTime :=
  if containsSub "pm".data timePart then
    if containsSub ":".data (pyStripChars (removeAll "pm".data timePart)) then
      match splitOnChar ':' (pyStripChars (removeAll "pm".data timePart)) with
      | [a, b] => do
        let h ← pyInt ⟨a⟩
        let m ← pyInt ⟨b⟩
        pyReplaceTime base (if h ≠ 12 then h + 12 else h) m
      | _ => none
    else do
      let h ← pyInt ⟨pyStripChars (removeAll "pm".data timePart)⟩
      pyReplaceTime base (if h ≠ 12 then h + 12 else h) 0
  else if containsSub "am".data timePart then
    if containsSub ":".data (pyStripChars (removeAll "am".data timePart)) then
      match splitOnChar ':' (pyStripChars (removeAll "am".data timePart)) with
      | [a, b] => do
        let h ← pyInt ⟨a⟩
        let m ← pyInt ⟨b⟩
        pyReplaceTime base (if h = 12 then 0 else h) m
      | _ => none
    else do
      let h ← pyInt ⟨pyStripChars (removeAll "am".data timePart)⟩
      pyReplaceTime base (if h = 12 then 0 else h) 0
  else if containsSub ":".data timePart then
    match splitOnChar ':' timePart with
    | [a, b] => do
      let h ← pyInt ⟨a⟩
      let m ← pyInt ⟨b⟩
      pyReplaceTime base h m
    | _ => none
  else do
    let h ← pyInt ⟨timePart⟩
    pyReplaceTime base h 0

def firstDigitRun : List Char → Option (List Char)
  | [] => none
  | c :: rest =>
    if isAsciiDigit c then some ((c :: rest).takeWhile isAsciiDigit)
    else firstDigitRun rest

/-- The duration ladder: `"minute"`/`"hour"` keyword selects the unit, the
first digit run gives the count (`re.search(r'\d+')` raising when absent),
otherwise the 60-minute default. -/
def parseDurationMinutes (durationStr : String) : Option Nat :=
  if containsSub "minute".data durationStr.data then
    (firstDigitRun durationStr.data).map digitsVal
  else if containsSub "hour".data durationStr.data then
    (firstDigitRun durationStr.data).map (fun n => digitsVal n * 60)
  else some 60

/-- The `try` body of `_parse_natural_datetime`: anchor on
tomorrow/today/now, parse the time remainder, parse the duration. -/
def parseNaturalDatetimeCore (now : PyDateTime) (timeStr durationStr : String) :
    Option (PyDateTime × PyDateTime) := do
  let st ←
    if containsSub "tomorrow".data (pyLower timeStr.data) then
      parseTimePart { now with day := now.day + 1 }
        (pyStripChars (removeAll "tomorrow".data (pyLower timeStr.data)))
    else if containsSub "today".data (pyLower timeStr.data) then
      parseTimePart now
        (pyStripChars (removeAll "today".data (pyLower timeStr.data)))
    else
      parseTimePart now (pyStripChars timeStr.data)
  let dur ← parseDurationMinutes durationStr
  pure (st, addMinutes st dur)

/-- `_parse_natural_datetime`: on any exception in the body, fall back to a
one-hour event starting one hour from now. -/
def parseNaturalDatetime (now : PyDateTime) (timeStr durationStr : String) :
    PyDateTime × PyDateTime :=
  match parseNaturalDatetimeCore now timeStr durationStr with
  | some r => r
  | none => (addMinutes now 60, addMinutes (addMinutes now 60) 60)

/-! ### Structural lemmas about the serialization format -/

theorem splitOnNl_no_nl {l : List Char} (h : '\n' ∉ l) : splitOnNl l = [l] := by
  induction l with
  | nil => rfl
  | cons c rest ih =>
    have hc : ¬c = '\n' := fun hcc => h (hcc ▸ List.mem_cons_self c rest)
    have hr : '\n' ∉ rest := fun hm => h (List.mem_cons_of_mem c hm)
    simp [splitOnNl, hc, ih hr]

theorem splitOnNl_append {l t : List Char} (h : '\n' ∉ l) :
    splitOnNl (l ++ '\n' :: t) = l :: splitOnNl t := by
  induction l with
  | nil => simp [splitOnNl]
  | cons c rest ih =>
    have hc : ¬c = '\n' := fun hcc => h (hcc ▸ List.mem_cons_self c rest)
    have hr : '\n' ∉ rest := fun hm => h (List.mem_cons_of_mem c hm)
    have := ih hr
    simp only [List.cons_append, splitOnNl, hc, if_false, List.append_eq, this]

theorem splitOnNl_joinNl {ls : List (List Char)} (h : ls ≠ [])
    (hnl : ∀ l ∈ ls, '\n' ∉ l) : splitOnNl (joinNl ls) = ls := by
  induction ls with
  | nil => exact absurd rfl h
  | cons l rest ih =>
    cases rest with
    | nil => simpa [joinNl] using splitOnNl_no_nl (hnl l (List.mem_cons_self l []))
    | cons l' t =>
      have h1 : '\n' ∉ l := hnl l (List.mem_cons_self l _)
      have h2 : ∀ x ∈ l' :: t, '\n' ∉ x := fun x hx => hnl x (List.mem_cons_of_mem l hx)
      rw [joinNl, splitOnNl_append h1, ih (List.cons_ne_nil l' t) h2]

theorem joinNl_cons_append (l : List Char) (ls : List (List Char)) :
    ∃ r, joinNl (l :: ls) = l ++ r := by
  cases ls with
  | nil => exact ⟨[], by simp [joinNl]⟩
  | cons l' t => exact ⟨'\n' :: joinNl (l' :: t), rfl⟩

theorem joinNl_last_suffix {ls : List (List Char)} {l : List Char}
    (h : ls.getLast? = some l) : l <:+ joinNl ls := by
  induction ls with
  | nil => simp at h
  | cons l0 rest ih =>
    cases rest with
    | nil =>
      simp only [List.getLast?_singleton, Option.some.injEq] at h
      exact h ▸ List.suffix_refl _
    | cons l1 t =>
      have h' : (l1 :: t).getLast? = some l := by
        rwa [List.getLast?_cons_cons] at h
      have := ih h'
      have hfin : l <:+ l0 ++ '\n' :: joinNl (l1 :: t) :=
        (this.trans (List.suffix_cons '\n' _)).trans (List.suffix_append _ _)
      exact hfin

theorem joinNl_mem_infix {ls : List (List Char)} {l : List Char}
    (h : l ∈ ls) : l <:+: joinNl ls := by
  induction ls with
  | nil => simp at h
  | cons l0 rest ih =>
    cases rest with
    | nil =>
      have : l = l0 := by simpa using h
      exact this ▸ List.infix_refl _
    | cons l1 t =>
      rcases List.mem_cons.mp h with rfl | hm
      · have hfin : l <:+: l ++ '\n' :: joinNl (l1 :: t) :=
          (List.prefix_append l ('\n' :: joinNl (l1 :: t))).isInfix
        exact hfin
      · have := ih hm
        have h2 : joinNl (l1 :: t) <:+: l0 ++ '\n' :: joinNl (l1 :: t) :=
          ((List.suffix_cons '\n' _).trans (List.suffix_append _ _)).isInfix
        exact this.trans h2

theorem isSuffixOfB_of_suffix {a b : List Char} (h : a <:+ b) :
    isSuffixOfB a b = true := by
  induction b with
  | nil =>
    have : a = [] := List.suffix_nil.mp h
    simp [isSuffixOfB, this]
  | cons c t ih =>
    rcases List.suffix_cons_iff.mp h with rfl | h'
    · simp [isSuffixOfB]
    · rw [isSuffixOfB]
      split
      · rfl
      · exact ih h'

theorem dropWhile_pyIsSpace_eq_self {cs : List Char}
    (h : ∀ c, cs.head? = some c → pyIsSpace c = false) :
    cs.dropWhile pyIsSpace = cs := by
  cases cs with
  | nil => rfl
  | cons c t => simp [List.dropWhile_cons, h c rfl]

theorem pyStripChars_eq_self {cs : List Char}
    (h1 : ∀ c, cs.head? = some c → pyIsSpace c = false)
    (h2 : ∀ c, cs.getLast? = some c → pyIsSpace c = false) :
    pyStripChars cs = cs := by
  unfold pyStripChars
  rw [dropWhile_pyIsSpace_eq_self h1]
  rw [dropWhile_pyIsSpace_eq_self (fun c hc => h2 c (by rwa [List.head?_reverse] at hc))]
  exact List.reverse_reverse cs

theorem pyStripChars_ne_nil {cs : List Char} {c : Char}
    (hm : c ∈ cs) (hc : pyIsSpace c = false) : pyStripChars cs ≠ [] := by
  intro hnil
  unfold pyStripChars at hnil
  rw [List.reverse_eq_nil_iff, List.dropWhile_eq_nil_iff] at hnil
  have hcd : c ∈ cs.dropWhile pyIsSpace := by
    rcases (List.mem_append.mp (by rwa [List.takeWhile_append_dropWhile] :
        c ∈ cs.takeWhile pyIsSpace ++ cs.dropWhile pyIsSpace)) with h' | h'
    · exact absurd (List.mem_takeWhile_imp h') (by simp [hc])
    · exact h'
  have := hnil c (List.mem_reverse.mpr hcd)
  rw [hc] at this
  exact Bool.false_ne_true this

theorem splitFirstBar_append {r c : List Char} (h : '|' ∉ r) :
    splitFirstBar (r ++ '|' :: c) = some (r, c) := by
  induction r with
  | nil => simp [splitFirstBar]
  | cons x t ih =>
    have hx : ¬x = '|' := fun hxx => h (hxx ▸ List.mem_cons_self x t)
    have ht : '|' ∉ t := fun hm => h (List.mem_cons_of_mem x hm)
    simp [splitFirstBar, hx, ih ht]

theorem getLast?_of_suffix {α : Type} {a b : List α} (h : a <:+ b)
    (ha : a ≠ []) : b.getLast? = a.getLast? := by
  obtain ⟨pre, rfl⟩ := h
  rw [List.getLast?_append_of_ne_nil pre ha]

theorem msgLine_ne_nil (m : ConversationMessage) : msgLine m ≠ [] := by
  simp [msgLine]

theorem parseLine_msgLine {m : ConversationMessage} (hrole : '|' ∉ m.role.data) :
    parseLine (msgLine m) = some m := by
  have hbar : '|' ∈ msgLine m := by
    unfold msgLine
    exact List.mem_append.mpr (Or.inr (List.mem_cons_self _ _))
  have hne := pyStripChars_ne_nil hbar (by decide)
  unfold parseLine
  rw [if_neg hne, msgLine, splitFirstBar_append hrole]

theorem filterMap_parseLine {l : List ConversationMessage}
    (hr : ∀ m ∈ l, '|' ∉ m.role.data) :
    (l.map msgLine).filterMap parseLine = l := by
  induction l with
  | nil => rfl
  | cons m t ih =>
    simp only [List.map_cons, List.filterMap_cons,
      parseLine_msgLine (hr m (List.mem_cons_self _ _))]
    rw [ih (fun x hx => hr x (List.mem_cons_of_mem _ hx))]

/-- Decidable form of "the final stored turn's content does not end in
whitespace that `str.strip()` would eat". -/
def lastContentEndOk (T : List ConversationMessage) : Bool :=
  match T.getLast? with
  | none => true
  | some m =>
    match m.content.data.getLast? with
    | none => true
    | some c => !(pyIsSpace c)

theorem lastContentEndOk_spec {T : List ConversationMessage}
    (hb : lastContentEndOk T = true) :
    ∀ m, T.getLast? = some m → ∀ c, m.content.data.getLast? = some c →
      pyIsSpace c = false := by
  intro m hm c hcc
  unfold lastContentEndOk at hb
  rw [hm] at hb
  simp only [] at hb
  rw [hcc] at hb
  simpa using hb

theorem conversation_roundtrip (h : List ConversationMessage)
    (hr : ∀ m ∈ h, m.role = "user" ∨ m.role = "assistant")
    (hc : ∀ m ∈ h, '\n' ∉ m.content.data)
    (hl : ∀ m, h.getLast? = some m → ∀ c, m.content.data.getLast? = some c →
      pyIsSpace c = false) :
    parseConversationString (conversationToString h) = h := by
  cases h with
  | nil => rfl
  | cons m0 t =>
    obtain ⟨r0, hr0⟩ := joinNl_cons_append (msgLine m0) (t.map msgLine)
    have hmap : (m0 :: t).map msgLine = msgLine m0 :: t.map msgLine := rfl
    have hhead : ∀ c, (joinNl ((m0 :: t).map msgLine)).head? = some c →
        pyIsSpace c = false := by
      intro c hcc
      rw [hmap, hr0, List.head?_append_of_ne_nil _ (msgLine_ne_nil m0)] at hcc
      rcases hr m0 (List.mem_cons_self _ _) with h0 | h0
      · rw [msgLine, h0] at hcc
        obtain rfl := Option.some.inj (show some 'u' = some c from hcc)
        decide
      · rw [msgLine, h0] at hcc
        obtain rfl := Option.some.inj (show some 'a' = some c from hcc)
        decide
    have hlast : ∀ c, (joinNl ((m0 :: t).map msgLine)).getLast? = some c →
        pyIsSpace c = false := by
      intro c hcc
      have hml : (m0 :: t).getLast? = some ((m0 :: t).getLast (by simp)) :=
        List.getLast?_eq_getLast _ _
      have hmapLast : ((m0 :: t).map msgLine).getLast? =
          some (msgLine ((m0 :: t).getLast (by simp))) := by
        rw [List.getLast?_map, hml, Option.map_some']
      have hsuf := joinNl_last_suffix hmapLast
      rw [getLast?_of_suffix hsuf (msgLine_ne_nil _)] at hcc
      rw [msgLine, List.getLast?_append_of_ne_nil _ (List.cons_ne_nil _ _)] at hcc
      cases hcd : ((m0 :: t).getLast (by simp)).content.data with
      | nil =>
        rw [hcd] at hcc
        obtain rfl := Option.some.inj (show some '|' = some c from hcc)
        decide
      | cons x xs =>
        rw [hcd, List.getLast?_cons_cons] at hcc
        exact hl _ hml c (by rw [hcd]; exact hcc)
    have hstrip : pyStripChars (joinNl ((m0 :: t).map msgLine)) =
        joinNl ((m0 :: t).map msgLine) := pyStripChars_eq_self hhead hlast
    have hjne : joinNl ((m0 :: t).map msgLine) ≠ [] := by
      rw [hmap, hr0]
      exact fun hx => (msgLine_ne_nil m0) (List.append_eq_nil.mp hx).1
    have hlines : ∀ l ∈ (m0 :: t).map msgLine, '\n' ∉ l := by
      intro l hlm
      obtain ⟨m, hm, rfl⟩ := List.mem_map.mp hlm
      intro hnl
      rcases List.mem_append.mp hnl with hh | hh
      · rcases hr m hm with h0 | h0 <;> rw [h0] at hh <;> exact absurd hh (by decide)
      · rcases List.mem_cons.mp hh with h1 | h1
        · exact absurd h1 (by decide)
        · exact hc m hm h1
    have hsplit : splitOnNl (joinNl ((m0 :: t).map msgLine)) = (m0 :: t).map msgLine :=
      splitOnNl_joinNl (by simp) hlines
    have hdata : (conversationToString (m0 :: t)).data =
        joinNl ((m0 :: t).map msgLine) := rfl
    rw [parseConversationString, hdata, hstrip, if_neg hjne, hsplit]
    exact filterMap_parseLine
      (fun m hm => by rcases hr m hm with h0 | h0 <;> rw [h0] <;> decide)

/-! ### The truncation loop computes a minimal suffix -/

theorem totalTokens_cons (tc : String → Nat) (m : ConversationMessage)
    (rest : List ConversationMessage) :
    totalTokens tc (m :: rest) = tc m.content + totalTokens tc rest := by
  simp [totalTokens]

theorem truncateGo_spec (tc : String → Nat) (B : Nat) :
    ∀ (msgs : List ConversationMessage) (total : Nat),
    total = totalTokens tc msgs → 2 ≤ msgs.length →
    ∃ k, k ≤ msgs.length - 2 ∧ truncateGo tc B total msgs = msgs.drop k ∧
      (∀ j < k, 10 * totalTokens tc (msgs.drop j) > 7 * B) ∧
      (10 * totalTokens tc (msgs.drop k) ≤ 7 * B ∨ (msgs.drop k).length = 2) := by
  intro msgs
  induction msgs with
  | nil => intro total _ hlen; simp at hlen
  | cons m rest ih =>
    intro total htot hlen
    rw [truncateGo]
    by_cases h1 : 10 * total ≤ 7 * B
    · refine ⟨0, Nat.zero_le _, by rw [if_pos h1, List.drop_zero], ?_, ?_⟩
      · intro j hj; omega
      · rw [List.drop_zero, ← htot]; exact Or.inl h1
    · rw [if_neg h1]
      by_cases h2 : (m :: rest).length ≤ 2
      · have hl2 : (m :: rest).length = 2 := le_antisymm h2 hlen
        refine ⟨0, Nat.zero_le _, by rw [if_pos h2, List.drop_zero], ?_, ?_⟩
        · intro j hj; omega
        · rw [List.drop_zero]; exact Or.inr hl2
      · rw [if_neg h2]
        have hrestlen : 2 ≤ rest.length := by
          simp only [List.length_cons] at h2; omega
        have htot' : total - tc m.content = totalTokens tc rest := by
          rw [htot, totalTokens_cons]; omega
        obtain ⟨k, hk, heq, hmin, hfin⟩ := ih (total - tc m.content) htot' hrestlen
        refine ⟨k + 1, ?_, ?_, ?_, ?_⟩
        · simp only [List.length_cons]; omega
        · simpa [List.drop_succ_cons] using heq
        · intro j hj
          cases j with
          | zero =>
            rw [List.drop_zero, ← htot]
            omega
          | succ j' =>
            rw [List.drop_succ_cons]
            exact hmin j' (by omega)
        · rw [List.drop_succ_cons]; exact hfin

/-! ## Claim C1: token-budget truncation -/

/-- C1, counterexample: the claim quantifies over every over-budget history,
but for a one-turn history whose single content already exceeds the budget the
loop stops at the two-message floor with 1 turn retained, so afterwards
neither `total ≤ 0.7 * B` nor `exactly 2 turns remain` holds.  Here the
tokenizer is `String.length`, `B = 10`, and the single content has 20
characters. -/
theorem c1_truncation_counterexample :
    totalTokens String.length [⟨"user", "aaaaaaaaaaaaaaaaaaaa"⟩] > 10 ∧
    truncateContext String.length 10 [⟨"user", "aaaaaaaaaaaaaaaaaaaa"⟩] =
      [⟨"user", "aaaaaaaaaaaaaaaaaaaa"⟩] ∧
    ¬(10 * totalTokens String.length (truncateContext String.length 10
          [⟨"user", "aaaaaaaaaaaaaaaaaaaa"⟩]) ≤ 7 * 10 ∨
      (truncateContext String.length 10
          [⟨"user", "aaaaaaaaaaaaaaaaaaaa"⟩]).length = 2) := by
  refine ⟨by decide, by decide, ?_⟩
  decide

/-- C1, amended: for every history of at least 2 turns whose total token count
exceeds the budget `B`, truncation removes turns only from the oldest end
(the result is `h.drop k`), never drops below 2 retained turns
(`k ≤ h.length - 2`, so the 2 most recent turns survive), stops as soon as
the total is at most `0.7 * B` or 2 turns remain (minimality of `k`), and
afterwards the total is at most `0.7 * B` or exactly 2 turns remain.  The
original claim's "exactly 2 turns remain" fails only for histories that
start with fewer than 2 turns. -/
theorem c1_truncation_amended (tc : String → Nat) (B : Nat)
    (h : List ConversationMessage) (hlen : 2 ≤ h.length)
    (hover : totalTokens tc h > B) :
    ∃ k, k ≤ h.length - 2 ∧ truncateContext tc B h = h.drop k ∧
      h.drop (h.length - 2) <:+ truncateContext tc B h ∧
      (∀ j < k, 10 * totalTokens tc (h.drop j) > 7 * B) ∧
      (10 * totalTokens tc (truncateContext tc B h) ≤ 7 * B ∨
        (truncateContext tc B h).length = 2) := by
  obtain ⟨k, hk, heq, hmin, hfin⟩ := truncateGo_spec tc B h (totalTokens tc h) rfl hlen
  rw [truncateContext]
  refine ⟨k, hk, heq, ?_, hmin, by rw [heq]; exact hfin⟩
  rw [heq]
  have hdr := List.drop_suffix (h.length - 2 - k) (h.drop k)
  rwa [List.drop_drop, show k + (h.length - 2 - k) = h.length - 2 by omega] at hdr

/-- C1, witness: the amended theorem at a concrete 3-turn history over budget
(`tc = String.length`, `B = 10`, contents of 4 characters each). -/
theorem c1_truncation_witness :
    ∃ k, k ≤ ([⟨"user", "aaaa"⟩, ⟨"assistant", "bbbb"⟩, ⟨"user", "cccc"⟩] :
        List ConversationMessage).length - 2 ∧
      truncateContext String.length 10
        [⟨"user", "aaaa"⟩, ⟨"assistant", "bbbb"⟩, ⟨"user", "cccc"⟩] =
        ([⟨"user", "aaaa"⟩, ⟨"assistant", "bbbb"⟩, ⟨"user", "cccc"⟩] :
          List ConversationMessage).drop k ∧
      ([⟨"user", "aaaa"⟩, ⟨"assistant", "bbbb"⟩, ⟨"user", "cccc"⟩] :
          List ConversationMessage).drop
        (([⟨"user", "aaaa"⟩, ⟨"assistant", "bbbb"⟩, ⟨"user", "cccc"⟩] :
            List ConversationMessage).length - 2) <:+
        truncateContext String.length 10
          [⟨"user", "aaaa"⟩, ⟨"assistant", "bbbb"⟩, ⟨"user", "cccc"⟩] ∧
      (∀ j < k, 10 * totalTokens String.length
        (([⟨"user", "aaaa"⟩, ⟨"assistant", "bbbb"⟩, ⟨"user", "cccc"⟩] :
          List ConversationMessage).drop j) > 7 * 10) ∧
      (10 * totalTokens String.length (truncateContext String.length 10
          [⟨"user", "aaaa"⟩, ⟨"assistant", "bbbb"⟩, ⟨"user", "cccc"⟩]) ≤ 7 * 10 ∨
        (truncateContext String.length 10
          [⟨"user", "aaaa"⟩, ⟨"assistant", "bbbb"⟩, ⟨"user", "cccc"⟩]).length = 2) :=
  c1_truncation_amended String.length 10
    [⟨"user", "aaaa"⟩, ⟨"assistant", "bbbb"⟩, ⟨"user", "cccc"⟩]
    (by decide) (by decide)

/-! ## Claim C2: transcript round-trip -/

/-- C2, counterexample: the round-trip claim fails for arbitrary content.  For
the one-turn transcript whose content is `"a\nb"`, serialization produces
`"user|a\nb"`, and parsing splits at the embedded newline: the turn comes back
with content `"a"` and the line `"b"` is dropped, so parse ∘ serialize is not
the identity. -/
theorem c2_roundtrip_counterexample :
    parseConversationString (conversationToString [⟨"user", "a\nb"⟩]) =
      [⟨"user", "a"⟩] ∧
    ([(⟨"user", "a"⟩ : ConversationMessage)] : List ConversationMessage) ≠
      [⟨"user", "a\nb"⟩] := by
  constructor
  · decide
  · decide

/-- C2, amended: parsing the serialized form reproduces the transcript exactly
for every transcript whose turns have role `"user"` or `"assistant"`, whose
contents contain no newline character, and whose final turn's content does not
end in Python whitespace (the serializer joins turns as `role|content` lines
with `\n` and the parser strips the stored string first, so an embedded
newline or trailing whitespace in the last content is lost). -/
theorem c2_roundtrip_amended (T : List ConversationMessage)
    (hr : ∀ m ∈ T, m.role = "user" ∨ m.role = "assistant")
    (hc : ∀ m ∈ T, '\n' ∉ m.content.data)
    (hl : lastContentEndOk T = true) :
    parseConversationString (conversationToString T) = T :=
  conversation_roundtrip T hr hc (lastContentEndOk_spec hl)

/-- C2, witness: the amended round-trip theorem applied to a concrete two-turn
transcript (whose second content even contains a bar). -/
theorem c2_roundtrip_witness :
    parseConversationString (conversationToString
      [⟨"user", "hello"⟩, ⟨"assistant", "hi|there"⟩]) =
      [⟨"user", "hello"⟩, ⟨"assistant", "hi|there"⟩] :=
  c2_roundtrip_amended _ (by decide) (by decide) (by decide)

/-! ### Every returned email match has the email shape -/

theorem tryTld_spec (tl : List Char) : ∀ n t, tryTld tl n = some t → 2 ≤ t ∧ t ≤ n
  | 0, t, h => by simp [tryTld] at h
  | 1, t, h => by simp [tryTld] at h
  | m + 2, t, h => by
    rw [tryTld] at h
    split at h
    · obtain rfl := Option.some.inj h; omega
    · have := tryTld_spec tl (m + 1) t h
      omega

theorem tryDomain_spec (rest' : List Char) : ∀ n k t,
    tryDomain rest' n = some (k, t) →
    1 ≤ k ∧ k ≤ n ∧ rest'.get? k = some '.' ∧
      tryTld (rest'.drop (k + 1))
        (((rest'.drop (k + 1)).takeWhile isTldChar).length) = some t
  | 0, k, t, h => by simp [tryDomain] at h
  | m + 1, k, t, h => by
    rw [tryDomain] at h
    split at h
    · rename_i hdot
      split at h
      · rename_i t' htld
        obtain ⟨rfl, rfl⟩ := Prod.mk.injEq .. ▸ Option.some.inj h
        exact ⟨by omega, le_refl _, hdot, htld⟩
      · have := tryDomain_spec rest' m k t h
        exact ⟨this.1, by omega, this.2.2⟩
    · have := tryDomain_spec rest' m k t h
      exact ⟨this.1, by omega, this.2.2⟩

theorem all_take_of_takeWhile {p : Char → Bool} {l : List Char} {k : Nat}
    (hk : k ≤ (l.takeWhile p).length) : (l.take k).all p = true := by
  obtain ⟨suf, hsuf⟩ := List.takeWhile_prefix (p := p) (l := l)
  have htake : l.take k = (l.takeWhile p).take k := by
    conv_lhs => rw [← hsuf]
    rw [List.take_append_eq_append_take,
      show k - (l.takeWhile p).length = 0 by omega, List.take_zero,
      List.append_nil]
  rw [htake, List.all_eq_true]
  intro x hx
  exact List.mem_takeWhile_imp (List.take_subset _ _ hx)

theorem emailMatchAt_shape {prev : Option Char} {cs m : List Char}
    (h : emailMatchAt prev cs = some m) : EmailShape m := by
  unfold emailMatchAt at h
  split at h
  · exact absurd h (by simp)
  · split at h
    · exact absurd h (by simp)
    · rename_i hloc
      split at h
      case _ rest' heq =>
        split at h
        case _ k t hdom =>
          obtain rfl := Option.some.inj h
          obtain ⟨hk1, hkn, hdot, htld⟩ :=
            tryDomain_spec rest' ((rest'.takeWhile isDomainChar).length) k t hdom
          obtain ⟨ht2, htn⟩ := tryTld_spec _ _ t htld
          have hklt : k < rest'.length := by
            by_contra hcon
            rw [List.get?_eq_none.mpr (by omega)] at hdot
            exact Option.noConfusion hdot
          refine ⟨cs.takeWhile isLocalChar, rest'.take k,
            (rest'.drop (k + 1)).take t, rfl, ?_, ?_, ?_, ?_, ?_, ?_⟩
          · intro hnil
            rw [hnil] at hloc
            exact hloc rfl
          · rw [List.all_eq_true]
            intro x hx
            exact List.mem_takeWhile_imp hx
          · intro hnil
            have hlen0 := congrArg List.length hnil
            rw [List.length_take] at hlen0
            simp only [List.length_nil] at hlen0
            omega
          · exact all_take_of_takeWhile hkn
          · have hle := (List.takeWhile_prefix (p := isTldChar)
              (l := rest'.drop (k + 1))).length_le
            have hdl : (rest'.drop (k + 1)).length = rest'.length - (k + 1) :=
              List.length_drop _ _
            have hlen : ((rest'.drop (k + 1)).take t).length = t := by
              rw [List.length_take]
              omega
            omega
          · exact all_take_of_takeWhile htn
        · exact Option.noConfusion h
      · exact Option.noConfusion h

theorem findEmailAux_shape : ∀ (prev : Option Char) (cs m : List Char),
    findEmailAux prev cs = some m → EmailShape m
  | _, [], m, h => by simp [findEmailAux] at h
  | prev, c :: rest, m, h => by
    rw [findEmailAux] at h
    cases hm : emailMatchAt prev (c :: rest) with
    | some m' =>
      rw [hm] at h
      obtain rfl := Option.some.inj h
      exact emailMatchAt_shape hm
    | none =>
      rw [hm] at h
      exact findEmailAux_shape (some c) rest m h

theorem findFirstEmail_shape {s e : String} (h : findFirstEmail s = some e) :
    EmailShape e.data := by
  unfold findFirstEmail at h
  cases haux : findEmailAux none s.data with
  | none => rw [haux] at h; exact Option.noConfusion h
  | some cs =>
    rw [haux] at h
    obtain rfl := Option.some.inj h
    exact findEmailAux_shape none s.data cs haux

/-! ## Claim C3: email extraction vs. action-intent keywords -/

/-- C3, counterexample: the source's keyword list is larger than the claim
says.  The message `"my email is bob@example.com"` contains a syntactically
valid email address and none of the claim's keywords
draft/send/schedule/calendar/meeting, yet extraction returns no email because
the word `"email"` is also a blocked keyword in the code. -/
theorem c3_email_extraction_counterexample :
    (["draft", "send", "schedule", "calendar", "meeting"].all
      (fun k => !(containsSub k.data (pyLower ("my email is bob@example.com" :
        String).data)))) = true ∧
    findFirstEmail "my email is bob@example.com" = some "bob@example.com" ∧
    extractEmailFromText "my email is bob@example.com" = none := by
  refine ⟨by decide, by decide, by decide⟩

/-- C3, amended: extraction returns no email whenever any of the nine source
keywords draft/send/email/compose/write/create/schedule/calendar/meeting
occurs in the lowercased message (even when a syntactic match exists), and
otherwise returns the first syntactic match of the email pattern; any
returned match is a well-shaped address (nonempty local part over its class,
`@`, nonempty domain over its class, a dot, and a TLD of length at least
2). -/
theorem c3_email_extraction_amended (text : String) :
    extractEmailFromText text =
      (if containsAiKeyword text then none else findFirstEmail text) ∧
    (∀ e, extractEmailFromText text = some e → EmailShape e.data) := by
  refine ⟨rfl, ?_⟩
  intro e he
  unfold extractEmailFromText at he
  split at he
  · exact Option.noConfusion he
  · exact findFirstEmail_shape he

/-- C3, witness: the amended theorem applied to a keyword-free message with
an address, showing its extracted match is well-shaped. -/
theorem c3_email_extraction_witness : EmailShape ("a@bc.de" : String).data :=
  (c3_email_extraction_amended "reach out at a@bc.de").2 "a@bc.de" (by decide)

/-! ### The truncation loop keeps a nonempty suffix -/

theorem truncateGo_suffix (tc : String → Nat) (B : Nat) :
    ∀ (msgs : List ConversationMessage) (total : Nat),
    truncateGo tc B total msgs <:+ msgs := by
  intro msgs
  induction msgs with
  | nil =>
    intro total
    rw [truncateGo]
    split
    · exact List.suffix_refl _
    · split
      · exact List.suffix_refl _
      · exact List.suffix_refl _
  | cons m rest ih =>
    intro total
    rw [truncateGo]
    split
    · exact List.suffix_refl _
    · split
      · exact List.suffix_refl _
      · exact (ih _).trans (List.suffix_cons m rest)

theorem truncateGo_ne_nil (tc : String → Nat) (B : Nat) :
    ∀ (msgs : List ConversationMessage) (total : Nat), msgs ≠ [] →
    truncateGo tc B total msgs ≠ [] := by
  intro msgs
  induction msgs with
  | nil => intro total h; exact absurd rfl h
  | cons m rest ih =>
    intro total _
    rw [truncateGo]
    split
    · exact List.cons_ne_nil m rest
    · split
      · exact List.cons_ne_nil m rest
      · rename_i h1 h2
        have : rest ≠ [] := by
          intro hr
          rw [hr] at h2
          simp at h2
        exact ih _ this

theorem user_msgLine (s : String) :
    msgLine ⟨"user", s⟩ = ("user|" ++ s).data := rfl

/-! ## Claim C6: persistence of the user turn before the model call -/

/-- C6, counterexample: `_archive_conversation_message` has a `pass` body, so
in the ordinary (within-budget) run nothing at all is written to durable
transcript storage before the model call: the whole trace is the model call
followed by the single final persist, and a concurrent read between the
append and the model call cannot observe the user turn. -/
theorem c6_persist_before_model_counterexample :
    userTurnPersistedBeforeModel "hi"
      (handleAiConversation String.length 1000 (.ok "hello") none "" "hi").trace =
      false ∧
    (handleAiConversation String.length 1000 (.ok "hello") none "" "hi").trace =
      [ConvEvent.modelCall, ConvEvent.persist "user|hi\nassistant|hello"] := by
  refine ⟨by decide, by decide⟩

/-- C6, amended: the appended user turn is persisted before the model call
exactly when the token budget is exceeded — then the truncation write stores
a transcript ending in the serialized `user|<message>` line — and in the
within-budget run the user turn is first persisted only after the model
call. -/
theorem c6_persist_before_model_amended (tc : String → Nat) (B : Nat)
    (model : ModelOutcome) (execOutcome : Option String)
    (store userMessage : String) :
    userTurnPersistedBeforeModel userMessage
      (handleAiConversation tc B model execOutcome store userMessage).trace =
        true ↔
    totalTokens tc (convH1 store userMessage) > B := by
  by_cases hover : totalTokens tc (convH1 store userMessage) > B
  · refine ⟨fun _ => hover, fun _ => ?_⟩
    have htr : (handleAiConversation tc B model execOutcome store
        userMessage).trace =
        ConvEvent.persist (convStore1 tc B store userMessage) ::
          [ConvEvent.modelCall, ConvEvent.persist (convFinalStore tc B model
            execOutcome store userMessage)] := by
      simp only [handleAiConversation, if_pos hover, List.cons_append,
        List.nil_append]
    rw [htr]
    unfold userTurnPersistedBeforeModel
    simp only [List.takeWhile, notModelCall, List.any_cons, List.any_nil,
      Bool.or_false]
    have h1 : convH1 store userMessage ≠ [] := by
      unfold convH1; simp
    have h2 : truncateContext tc B (convH1 store userMessage) <:+
        convH1 store userMessage :=
      truncateGo_suffix tc B (convH1 store userMessage) _
    have h3 : truncateContext tc B (convH1 store userMessage) ≠ [] :=
      truncateGo_ne_nil tc B (convH1 store userMessage) _ h1
    have h4 : (convH1 store userMessage).getLast? =
        some ⟨"user", userMessage⟩ := by
      unfold convH1
      rw [List.getLast?_append_of_ne_nil _ (List.cons_ne_nil _ _)]
      rfl
    have h25 := getLast?_of_suffix h2 h3
    have h5 : (truncateContext tc B (convH1 store userMessage)).getLast? =
        some ⟨"user", userMessage⟩ := by
      rw [h25] at h4
      exact h4
    have h6 : ((truncateContext tc B (convH1 store userMessage)).map
        msgLine).getLast? = some (msgLine ⟨"user", userMessage⟩) := by
      rw [List.getLast?_map, h5, Option.map_some']
    have h7 := joinNl_last_suffix h6
    rw [user_msgLine] at h7
    have h8 : isSuffixOfB (("user|" ++ userMessage).data)
        (conversationToString (truncateContext tc B
          (convH1 store userMessage))).data = true :=
      isSuffixOfB_of_suffix h7
    have h9 : convStore1 tc B store userMessage =
        conversationToString (truncateContext tc B (convH1 store userMessage)) := by
      unfold convStore1
      rw [if_pos hover]
    rw [h9, h8]
  · refine ⟨fun hb => ?_, fun h => absurd h hover⟩
    have htr : (handleAiConversation tc B model execOutcome store
        userMessage).trace =
        [ConvEvent.modelCall, ConvEvent.persist (convFinalStore tc B model
          execOutcome store userMessage)] := by
      simp only [handleAiConversation, if_neg hover, List.nil_append]
    rw [htr] at hb
    unfold userTurnPersistedBeforeModel at hb
    simp [List.takeWhile, notModelCall] at hb

/-! ## Claim C7: model-call failure yields a single fallback apology -/

set_option maxHeartbeats 2000000 in
/-- C7, confirmed: when the model call raises, `_generate_ai_response`
swallows the exception and substitutes the fallback apology, so
`handle_ai_conversation` returns exactly that single reply and does not
raise; the run still reaches the final store step, so the user turn is kept
(its serialized line is part of the final persisted transcript, not rolled
back). -/
theorem c7_model_failure_fallback (tc : String → Nat) (B : Nat)
    (execOutcome : Option String) (store userMessage : String) :
    (handleAiConversation tc B .exn execOutcome store userMessage).replies =
      [fallbackModelReply] ∧
    ("user|" ++ userMessage).data <:+:
      (handleAiConversation tc B .exn execOutcome store userMessage).store.data := by
  have h1 : convFuncResult .exn execOutcome = none := by
    have hf : findJsonBlock (convFull0 .exn).data = false := by decide
    unfold convFuncResult
    rw [hf]
    simp
  constructor
  · have h2 : convClean .exn = fallbackModelReply := by decide
    have h3 : ¬(pyStrip fallbackModelReply = "") := by decide
    show convReplies .exn execOutcome = [fallbackModelReply]
    unfold convReplies
    rw [h1, h2, if_neg h3]
  · have hfull1 : convFull1 .exn execOutcome = fallbackModelReply := by
      unfold convFull1
      rw [h1]
      rfl
    have hmem : (⟨"user", userMessage⟩ : ConversationMessage) ∈
        parseConversationString (convStore1 tc B store userMessage) ++
        [⟨"user", userMessage⟩,
         ⟨"assistant", convFull1 .exn execOutcome⟩] :=
      List.mem_append.mpr (Or.inr (List.mem_cons_self _ _))
    have h3 := joinNl_mem_infix (List.mem_map_of_mem msgLine hmem)
    rw [user_msgLine] at h3
    have hstore : (handleAiConversation tc B .exn execOutcome store
        userMessage).store = convFinalStore tc B .exn execOutcome store
        userMessage := rfl
    rw [hstore]
    unfold convFinalStore conversationToString
    exact h3

/-! ### Evaluation lemmas for the datetime parser at a symbolic base date -/

theorem addMinutes_14_0_60 (d : Int) :
    addMinutes ⟨d, 14, 0⟩ 60 = ⟨d, 15, 0⟩ := by
  unfold addMinutes
  norm_num

theorem addMinutes_14_30_45 (d : Int) :
    addMinutes ⟨d, 14, 30⟩ 45 = ⟨d, 15, 15⟩ := by
  unfold addMinutes
  norm_num

theorem parseTimePart_2pm (b : PyDateTime) :
    parseTimePart b "2pm".data = some ⟨b.day, 14, 0⟩ := by
  have h1 : containsSub "pm".data ("2pm" : String).data = true := by decide
  have h2 : pyStripChars (removeAll "pm".data ("2pm" : String).data) =
      ("2" : String).data := by decide
  have h3 : containsSub ":".data ("2" : String).data = false := by decide
  have h4 : pyInt ⟨("2" : String).data⟩ = some 2 := by decide
  unfold parseTimePart
  rw [h1, if_pos rfl, h2, h3, if_neg (by simp)]
  simp only [Option.bind_eq_bind, h4, Option.some_bind]
  rw [if_pos (by decide : (2 : Int) ≠ 12)]
  unfold pyReplaceTime
  rw [if_pos (by norm_num)]
  simp

theorem parseTimePart_1430 (b : PyDateTime) :
    parseTimePart b "14:30".data = some ⟨b.day, 14, 30⟩ := by
  have h1 : containsSub "pm".data ("14:30" : String).data = false := by decide
  have h2 : containsSub "am".data ("14:30" : String).data = false := by decide
  have h3 : containsSub ":".data ("14:30" : String).data = true := by decide
  have h4 : splitOnChar ':' ("14:30" : String).data =
      [("14" : String).data, ("30" : String).data] := by decide
  have h5 : pyInt ⟨("14" : String).data⟩ = some 14 := by decide
  have h6 : pyInt ⟨("30" : String).data⟩ = some 30 := by decide
  unfold parseTimePart
  rw [h1, if_neg (by simp), h2, if_neg (by simp), h3, if_pos rfl, h4]
  simp only [Option.bind_eq_bind, h5, h6, Option.some_bind]
  unfold pyReplaceTime
  rw [if_pos (by norm_num)]
  simp

theorem parseTimePart_nil (b : PyDateTime) :
    parseTimePart b [] = none := by
  have h1 : containsSub "pm".data ([] : List Char) = false := by decide
  have h2 : containsSub "am".data ([] : List Char) = false := by decide
  have h3 : containsSub ":".data ([] : List Char) = false := by decide
  have h4 : pyInt (⟨[]⟩ : String) = none := by decide
  unfold parseTimePart
  rw [h1, if_neg (by simp), h2, if_neg (by simp), h3, if_neg (by simp)]
  simp only [Option.bind_eq_bind, h4, Option.none_bind]

/-! ## Claim C8: natural-language datetime resolution -/

/-- C8, counterexample: `_parse_natural_datetime` has no 2:00 PM default.
With `now = day 0, 10:00`, the claim says `"tomorrow"` without a time token
resolves to 2:00 PM on day 1; in the code the empty remainder makes
`int("")` raise, and the whole call falls back to one hour from now.
Likewise a duration string that contains `"minute"`/`"hour"` but no digits
does not default to 60 minutes: `re.search(r'\d+').group()` raises and the
whole call falls back. -/
theorem c8_datetime_counterexample :
    parseNaturalDatetime ⟨0, 10, 0⟩ "tomorrow" "1 hour" =
      (⟨0, 11, 0⟩, ⟨0, 12, 0⟩) ∧
    (⟨0, 11, 0⟩ : PyDateTime) ≠ ⟨1, 14, 0⟩ ∧
    parseNaturalDatetime ⟨0, 10, 0⟩ "today 2pm" "some minutes" =
      (⟨0, 11, 0⟩, ⟨0, 12, 0⟩) := by
  refine ⟨by decide, by decide, by decide⟩

/-- C8, amended: datetime resolution anchors the date on
`"today"`/`"tomorrow"` (defaulting to now's date when neither is present)
and parses a trailing `H[(:MM)](am|pm)` or 24-hour `H:MM` token; the
duration defaults to 60 minutes only when the duration string contains
neither `"minute"` nor `"hour"`; when no time token follows the anchor, or
when a `"minute"`/`"hour"` duration has no digits, the call falls back to a
one-hour event starting one hour from now (there is no 2:00 PM default in
this path). -/
theorem c8_datetime_amended (now : PyDateTime) (d : String) :
    parseNaturalDatetime now "tomorrow 2pm" "1 hour" =
      (⟨now.day + 1, 14, 0⟩, ⟨now.day + 1, 15, 0⟩) ∧
    parseNaturalDatetime now "today 14:30" "45 minutes" =
      (⟨now.day, 14, 30⟩, ⟨now.day, 15, 15⟩) ∧
    parseNaturalDatetime now "2pm" "unspecified" =
      (⟨now.day, 14, 0⟩, ⟨now.day, 15, 0⟩) ∧
    parseNaturalDatetime now "tomorrow" d =
      (addMinutes now 60, addMinutes (addMinutes now 60) 60) ∧
    parseNaturalDatetime now "today 2pm" "some minutes" =
      (addMinutes now 60, addMinutes (addMinutes now 60) 60) := by
  refine ⟨?_, ?_, ?_, ?_, ?_⟩
  · have hc1 : containsSub "tomorrow".data
        (pyLower ("tomorrow 2pm" : String).data) = true := by decide
    have ha1 : pyStripChars (removeAll "tomorrow".data
        (pyLower ("tomorrow 2pm" : String).data)) = "2pm".data := by decide
    have hd1 : parseDurationMinutes "1 hour" = some 60 := by decide
    unfold parseNaturalDatetime parseNaturalDatetimeCore
    rw [hc1, if_pos rfl, ha1, parseTimePart_2pm, hd1]
    simp only [Option.bind_eq_bind, Option.some_bind]
    rw [addMinutes_14_0_60]
  · have hc0 : containsSub "tomorrow".data
        (pyLower ("today 14:30" : String).data) = false := by decide
    have hc1 : containsSub "today".data
        (pyLower ("today 14:30" : String).data) = true := by decide
    have ha1 : pyStripChars (removeAll "today".data
        (pyLower ("today 14:30" : String).data)) = "14:30".data := by decide
    have hd1 : parseDurationMinutes "45 minutes" = some 45 := by decide
    unfold parseNaturalDatetime parseNaturalDatetimeCore
    rw [hc0, if_neg (by simp), hc1, if_pos rfl, ha1, parseTimePart_1430, hd1]
    simp only [Option.bind_eq_bind, Option.some_bind]
    rw [addMinutes_14_30_45]
  · have hc0 : containsSub "tomorrow".data
        (pyLower ("2pm" : String).data) = false := by decide
    have hc1 : containsSub "today".data
        (pyLower ("2pm" : String).data) = false := by decide
    have ha1 : pyStripChars ("2pm" : String).data = "2pm".data := by decide
    have hd1 : parseDurationMinutes "unspecified" = some 60 := by decide
    unfold parseNaturalDatetime parseNaturalDatetimeCore
    rw [hc0, if_neg (by simp), hc1, if_neg (by simp), ha1, parseTimePart_2pm,
      hd1]
    simp only [Option.bind_eq_bind, Option.some_bind]
    rw [addMinutes_14_0_60]
  · have hc1 : containsSub "tomorrow".data
        (pyLower ("tomorrow" : String).data) = true := by decide
    have ha1 : pyStripChars (removeAll "tomorrow".data
        (pyLower ("tomorrow" : String).data)) = [] := by decide
    unfold parseNaturalDatetime parseNaturalDatetimeCore
    rw [hc1, if_pos rfl, ha1, parseTimePart_nil]
    simp only [Option.bind_eq_bind, Option.none_bind]
  · have hc0 : containsSub "tomorrow".data
        (pyLower ("today 2pm" : String).data) = false := by decide
    have hc1 : containsSub "today".data
        (pyLower ("today 2pm" : String).data) = true := by decide
    have ha1 : pyStripChars (removeAll "today".data
        (pyLower ("today 2pm" : String).data)) = "2pm".data := by decide
    have hd1 : parseDurationMinutes "some minutes" = none := by decide
    unfold parseNaturalDatetime parseNaturalDatetimeCore
    rw [hc0, if_neg (by simp), hc1, if_pos rfl, ha1, parseTimePart_2pm, hd1]
    simp only [Option.bind_eq_bind, Option.some_bind, Option.none_bind]

/-! ### Invariant preservation lemmas for the router -/

theorem inv_of_ev_false {p : Profile} (h : p.emailVerified = false) :
    StateInvariant p := fun hc => by rw [h] at hc; exact Bool.false_ne_true hc.1

theorem inv_of_state_ne {p : Profile}
    (h : ¬p.onboardingState = "awaiting_email") : StateInvariant p :=
  fun hc => h hc.2

theorem inv_markEmailVerified {p : Profile} (hp : StateInvariant p) :
    StateInvariant (markEmailVerified p) := by
  unfold markEmailVerified
  split
  · exact hp
  · exact inv_of_state_ne (by simp)

theorem inv_handleEmailProvidedExisting (env : RouterEnv) (p : Profile)
    (em : String) :
    StateInvariant (handleEmailProvidedExisting env p em).1 := by
  unfold handleEmailProvidedExisting
  split
  · exact inv_of_state_ne (by simp)
  · exact inv_of_state_ne (by simp)

theorem inv_handleOtpVerificationExisting (env : RouterEnv) (p : Profile)
    (code : String) (hp : StateInvariant p) :
    StateInvariant (handleOtpVerificationExisting env p code).1 := by
  unfold handleOtpVerificationExisting
  split
  · exact hp
  · split
    · exact hp
    · split
      · exact inv_markEmailVerified hp
      · exact hp

theorem inv_stateDispatchExisting (env : RouterEnv) (p : Profile)
    (mt : String) (hev : p.emailVerified = false) :
    StateInvariant (stateDispatchExisting env p mt).1 := by
  unfold stateDispatchExisting
  split
  · split
    · exact inv_handleEmailProvidedExisting env p _
    · exact inv_of_ev_false hev
  · split
    · split
      · exact inv_handleEmailProvidedExisting env p _
      · exact inv_of_ev_false hev
    · split
      · split
        · exact inv_handleOtpVerificationExisting env p _ (inv_of_ev_false hev)
        · split
          · exact inv_handleEmailProvidedExisting env p _
          · exact inv_of_ev_false hev
      · exact inv_of_ev_false hev

theorem inv_handleExistingUserWorkflow (env : RouterEnv) (p : Profile)
    (text : String) (hev : p.emailVerified = false) :
    StateInvariant (handleExistingUserWorkflow env p text).1 := by
  unfold handleExistingUserWorkflow
  split
  · exact inv_of_ev_false hev
  · split
    · exact inv_handleEmailProvidedExisting env p _
    · split
      · exact inv_stateDispatchExisting env p _ hev
      · split
        · split
          · exact inv_stateDispatchExisting env p _ hev
          · split
            · exact inv_of_state_ne (by simp)
            · exact inv_of_state_ne (by simp)
        · exact inv_stateDispatchExisting env p _ hev

theorem inv_handleAiConversationRoute (env : RouterEnv) (p : Profile)
    (text : String) (hp : StateInvariant p) :
    StateInvariant (handleAiConversationRoute env p text).1 := by
  unfold handleAiConversationRoute
  split
  · exact hp
  · exact hp

theorem inv_checkAndCompleteOnboarding (p : Profile) (hp : StateInvariant p) :
    StateInvariant (checkAndCompleteOnboarding p).1 := by
  unfold checkAndCompleteOnboarding
  split
  · exact hp
  · split
    · exact hp
    · split
      · exact inv_of_state_ne (by simp [completeOnboardingWithIntegrations])
      · exact hp

theorem inv_handleNewUserWorkflow (env : RouterEnv) (phone text : String) :
    ∀ q, (handleNewUserWorkflow env phone text).1 = some q →
    StateInvariant q := by
  intro q hq
  unfold handleNewUserWorkflow at hq
  split at hq
  · exact Option.noConfusion hq
  · split at hq
    · split at hq <;>
        · obtain rfl := Option.some.inj hq
          exact inv_of_ev_false rfl
    · obtain rfl := Option.some.inj hq
      exact inv_of_ev_false rfl

theorem ev_false_of_route_else {p : Profile}
    (h1 : ¬(p.emailVerified && p.onboardingCompleted) = true)
    (h2 : ¬(p.emailVerified && !p.onboardingCompleted) = true) :
    p.emailVerified = false := by
  cases hev : p.emailVerified with
  | false => rfl
  | true =>
    cases hoc : p.onboardingCompleted with
    | true => rw [hev, hoc] at h1; simp at h1
    | false => rw [hev, hoc] at h2; simp at h2

theorem inv_processWebhookMessage_some (env : RouterEnv) (p : Profile)
    (msg : InboundMessage) (hp : StateInvariant p) :
    ∀ q, (processWebhookMessage env (some p) msg).1 = some q →
    StateInvariant q := by
  intro q hq
  unfold processWebhookMessage at hq
  split at hq
  · obtain rfl := Option.some.inj hq; exact hp
  · split at hq
    · obtain rfl := Option.some.inj hq; exact hp
    · split at hq
      · obtain rfl := Option.some.inj hq; exact hp
      · split at hq
        case _ p' heq =>
          obtain rfl := Option.some.inj heq
          split at hq
          · obtain rfl := Option.some.inj hq
            exact inv_handleAiConversationRoute env p msg.text hp
          · split at hq
            · split at hq
              · obtain rfl := Option.some.inj hq
                exact inv_handleAiConversationRoute env _ msg.text
                  (inv_checkAndCompleteOnboarding p hp)
              · obtain rfl := Option.some.inj hq
                exact inv_checkAndCompleteOnboarding p hp
            · obtain rfl := Option.some.inj hq
              rename_i h1 h2
              exact inv_handleExistingUserWorkflow env p msg.text
                (ev_false_of_route_else h1 h2)
        case _ heq => exact Option.noConfusion heq

theorem inv_processWebhookMessage_none (env : RouterEnv)
    (msg : InboundMessage) :
    ∀ q, (processWebhookMessage env none msg).1 = some q →
    StateInvariant q := by
  intro q hq
  unfold processWebhookMessage at hq
  split at hq
  · exact Option.noConfusion hq
  · split at hq
    · exact Option.noConfusion hq
    · split at hq
      · exact Option.noConfusion hq
      · exact inv_handleNewUserWorkflow env msg.phone msg.text q hq

/-! ## Claim C4: the restart command -/

/-- C4, counterexample: for a fully verified and onboarded user, the message
`"restart"` is routed to the conversation service (it contains no dashboard
keyword), so the onboarding state stays `"completed"` and the stored email
is kept — the restart command is only honoured on the not-yet-verified
routing path. -/
theorem c4_restart_counterexample :
    (processWebhookMessage testEnv (some verifiedUser)
        ⟨"restart", "+15551234567", false, "new-message"⟩).1 =
      some { verifiedUser with
        conversationHistory := "user|restart\nassistant|hello" } ∧
    ({ verifiedUser with
        conversationHistory := "user|restart\nassistant|hello" } :
      Profile).onboardingState = "completed" ∧
    ({ verifiedUser with
        conversationHistory := "user|restart\nassistant|hello" } :
      Profile).email = some "a@b.co" := by
  refine ⟨by decide, by decide, by decide⟩

/-- C4, amended: for every existing user whose email is not yet verified
(the routing condition under which `_handle_existing_user_workflow` runs —
this covers states not_started, awaiting_email and awaiting_email_otp), a
message whose stripped, lowercased text is `"restart"` resets the state to
`awaiting_email` and clears the stored email; users with
`email_verified = true` never reach the restart handler. -/
theorem c4_restart_amended (env : RouterEnv) (p : Profile)
    (phone text : String) (hphone : ¬phone = "")
    (hev : p.emailVerified = false)
    (hrestart : pyLower (pyStrip text).data = "restart".data) :
    processWebhookMessage env (some p) ⟨text, phone, false, "new-message"⟩ =
      (some { p with onboardingState := "awaiting_email", email := none },
        [restartReply], []) := by
  unfold processWebhookMessage handleExistingUserWorkflow
    restartVerificationProcess
  simp [hev, hphone, hrestart]

/-- C4, witness: the amended theorem at a user awaiting their code and the
message `" ReStArT "` (stripping and lowercasing exercised). -/
theorem c4_restart_witness :
    processWebhookMessage testEnv (some otpUser)
        ⟨" ReStArT ", "+15550000000", false, "new-message"⟩ =
      (some { otpUser with onboardingState := "awaiting_email", email := none },
        [restartReply], []) :=
  c4_restart_amended testEnv otpUser "+15550000000" " ReStArT "
    (by decide) (by decide) (by decide)

/-! ## Claim C5: the verified-flag/state invariant -/

/-- C5, confirmed: every update the core performs keeps the record out of
the forbidden `email_verified = true ∧ onboarding_state = "awaiting_email"`
combination: processing any webhook message for an existing or new user
preserves the invariant, `_mark_email_verified` sets the flag together with
`awaiting_integrations` (or no-ops when already verified), and both
onboarding-completion updates set state `"completed"`. -/
theorem c5_state_invariant (env : RouterEnv) (msg : InboundMessage)
    (p : Profile) (hp : StateInvariant p) :
    (∀ q, (processWebhookMessage env (some p) msg).1 = some q →
      StateInvariant q) ∧
    (∀ q, (processWebhookMessage env none msg).1 = some q →
      StateInvariant q) ∧
    StateInvariant (markEmailVerified p) ∧
    StateInvariant (completeOnboarding p) ∧
    StateInvariant (completeOnboardingWithIntegrations p) :=
  ⟨inv_processWebhookMessage_some env p msg hp,
   inv_processWebhookMessage_none env msg,
   inv_markEmailVerified hp,
   inv_of_state_ne (by simp [completeOnboarding]),
   inv_of_state_ne (by simp [completeOnboardingWithIntegrations])⟩

/-- C5, witness: the invariant theorem applied to the OTP-verification
transition of a concrete user (the run that flips `email_verified` on),
whose post-state is `awaiting_integrations` with the flag set. -/
theorem c5_state_invariant_witness :
    StateInvariant { otpUser with
      emailVerified := true, onboardingState := "awaiting_integrations" } :=
  (c5_state_invariant testEnv
      ⟨"123456", "+15550000000", false, "new-message"⟩ otpUser (by decide)).1
    { otpUser with
      emailVerified := true, onboardingState := "awaiting_integrations" }
    (by decide)

/-! ## Claim C9: webhook idempotency -/

/-- C9, code bug: the claim (and the docstring of `insert_webhook_event`)
promise that re-delivery of the same event id is a no-op, but the upsert
reports success for a duplicate id just as for a fresh one, and nothing
gates processing on it: delivering the identical new-user payload twice
sends an OTP email on the first run and again on the second. -/
theorem c9_idempotency_code_bug :
    (insertWebhookEvent ["e1"] "e1").2 = true ∧
    insertWebhookEvent ["e1"] "e1" = (["e1"], true) ∧
    countOtpSends (processWebhookMessage testEnv none
      ⟨"bob@example.com", "+15551234567", false, "new-message"⟩).2.2 = 1 ∧
    countOtpSends (processWebhookMessage testEnv
      (processWebhookMessage testEnv none
        ⟨"bob@example.com", "+15551234567", false, "new-message"⟩).1
      ⟨"bob@example.com", "+15551234567", false, "new-message"⟩).2.2 = 1 := by
  refine ⟨by decide, by decide, by decide, by decide⟩

/-! ## Claim C10: the dashboard-keyword shortcut -/

/-- C10, confirmed: for a fully verified user, a message containing any
dashboard keyword (case-insensitively) returns exactly the three fixed reply
strings with the dashboard URL, performs no effect (in particular no model
invocation), and leaves the profile — transcript included — unchanged. -/
theorem c10_dashboard_shortcut (env : RouterEnv) (p : Profile)
    (phone text : String) (hphone : ¬phone = "")
    (hev : p.emailVerified = true) (hoc : p.onboardingCompleted = true)
    (hkw : containsDashboardKeyword text = true) :
    processWebhookMessage env (some p) ⟨text, phone, false, "new-message"⟩ =
      (some p,
        ["here's your integrations dashboard:", dashboardUrl p,
         "you can manage all your connected services there"], []) := by
  unfold processWebhookMessage handleAiConversationRoute
  simp [hev, hoc, hkw, hphone]

/-- C10, witness: the shortcut theorem at the verified user and the message
`"show my Dashboard"`. -/
theorem c10_dashboard_shortcut_witness :
    processWebhookMessage testEnv (some verifiedUser)
        ⟨"show my Dashboard", "+15551234567", false, "new-message"⟩ =
      (some verifiedUser,
        ["here's your integrations dashboard:",
         "https://www.tryamygdala.tech/u1",
         "you can manage all your connected services there"], []) :=
  c10_dashboard_shortcut testEnv verifiedUser "+15551234567"
    "show my Dashboard" (by decide) (by decide) (by decide) (by decide)

end ProdBackend
